import Mathlib

/-!
Verification of the HWP 5.x converter core (scripts/hwp5/parser.py and
scripts/hwp5/ole.py) against its natural-language specification.

Bytes are modelled as `Nat` (each byte a value below 256), byte strings as
`List Nat`, Python `str` as Lean `String`.  Python loops whose cursor makes
strict forward progress are embedded as fuel-indexed recursions where the
fuel is an upper bound on the number of iterations derived from the cursor
bound (one fuel unit per iteration; the cursor advances by at least one byte
each iteration, so `data.length` many units always suffice).  Fallible
operations return `Except`.
-/

namespace Hwp

/-! ## Byte-level helpers -/

/-- Little-endian unsigned 16-bit value at position `pos` of `data`
(`struct.unpack('<H', data[pos:pos+2])`). -/
def u16at (data : List Nat) (pos : Nat) : Nat :=
  data.getD pos 0 + 256 * data.getD (pos + 1) 0

/-- Little-endian unsigned 32-bit value at position `pos` of `data`
(`struct.unpack('<I', data[pos:pos+4])`). -/
def u32at (data : List Nat) (pos : Nat) : Nat :=
  data.getD pos 0 + 256 * data.getD (pos + 1) 0 + 65536 * data.getD (pos + 2) 0 +
    16777216 * data.getD (pos + 3) 0

/-- Python slice `data[pos:pos+len]` (clamped at the end of the list). -/
def byteSlice (data : List Nat) (pos len : Nat) : List Nat :=
  (data.drop pos).take len

/-! ## Tag constants (parser.py) -/

def HWPTAG_BEGIN : Nat := 0x10
def HWPTAG_PARA_HEADER : Nat := HWPTAG_BEGIN + 50
def HWPTAG_PARA_TEXT : Nat := HWPTAG_BEGIN + 51
def HWPTAG_LIST_HEADER : Nat := HWPTAG_BEGIN + 56
def HWPTAG_TABLE : Nat := HWPTAG_BEGIN + 61

/-! ## Control character detection (parser.py `CONTROL_CHAR_SIZES`,
`find_control_char`) -/

/-- Size in WCHARs of each control character, `none` for codes absent from
the Python dict (`CONTROL_CHAR_SIZES`). -/
def CONTROL_CHAR_SIZES (ch : Nat) : Option Nat :=
  if ch = 0x00 ∨ ch = 0x0a ∨ ch = 0x0d ∨ ch = 0x18 ∨ ch = 0x1e ∨ ch = 0x1f then
    some 1
  else if (0x01 ≤ ch ∧ ch ≤ 0x09) ∨ ch = 0x0b ∨ ch = 0x0c ∨
      (0x0e ≤ ch ∧ ch ≤ 0x17) then
    some 8
  else
    none

/-- Loop body of `find_control_char`: linear scan for the leftmost regex
match of `[\x00-\x1f]\x00` at byte position `p` or later (a match needs two
bytes in range); an odd-aligned match restarts the search one byte further,
mirroring `start = i + 1; continue`.  One fuel unit is spent per scanned
position. -/
def find_control_char_go (data : List Nat) : Nat → Nat → Nat × Nat
  | 0, _ => (data.length, data.length)
  | fuel + 1, p =>
    if p + 1 < data.length then
      if data.getD p 0 ≤ 0x1f ∧ data.getD (p + 1) 0 = 0 then
        if p % 2 = 1 then
          find_control_char_go data fuel (p + 1)
        else
          match CONTROL_CHAR_SIZES (data.getD p 0) with
          | some size => (p, p + size * 2)
          | none => (p, p + 2)
      else
        find_control_char_go data fuel (p + 1)
    else
      (data.length, data.length)

/-- `find_control_char(data, start)`: positions `(control_start,
control_end)` in bytes of the next control character, or `(len, len)` when
none is found. -/
def find_control_char (data : List Nat) (start : Nat) : Nat × Nat :=
  find_control_char_go data data.length start

/-! ## UTF-16LE decoding (`bytes.decode('utf-16le', errors='ignore')`) -/

/-- Decode UTF-16LE bytes into characters, skipping invalid sequences (lone
surrogates) and a trailing odd byte, as Python's `errors='ignore'` does.
Each step consumes at least one 16-bit unit, so `l.length` fuel units
always suffice (the fuel only serves to make the recursion structural). -/
def decodeUtf16le_go : Nat → List Nat → List Char
  | 0, _ => []
  | _, [] => []
  | _, [_] => []
  | fuel + 1, lo :: hi :: rest =>
    let u := lo + 256 * hi
    if 0xD800 ≤ u ∧ u ≤ 0xDBFF then
      match rest with
      | lo2 :: hi2 :: rest2 =>
        let u2 := lo2 + 256 * hi2
        if 0xDC00 ≤ u2 ∧ u2 ≤ 0xDFFF then
          Char.ofNat (0x10000 + (u - 0xD800) * 0x400 + (u2 - 0xDC00)) ::
            decodeUtf16le_go fuel rest2
        else
          decodeUtf16le_go fuel (lo2 :: hi2 :: rest2)
      | _ => []
    else if 0xDC00 ≤ u ∧ u ≤ 0xDFFF then
      decodeUtf16le_go fuel rest
    else
      Char.ofNat u :: decodeUtf16le_go fuel rest

/-- Decode UTF-16LE bytes (`data.decode('utf-16le', errors='ignore')`). -/
def decodeUtf16le (l : List Nat) : List Char :=
  decodeUtf16le_go l.length l

/-! ## `parse_para_text_chunks` -/

/-- Loop body of `parse_para_text_chunks`: the cursor strictly increases by
at least two bytes each iteration (`idx = ctrlpos_end if ctrlpos_end > idx
else idx + 2`), so `data.length` fuel units suffice. -/
def parse_para_text_chunks_go (data : List Nat) : Nat → Nat → List String
  | 0, _ => []
  | fuel + 1, idx =>
    if idx < data.length then
      let fc := find_control_char data idx
      let chunk : List String :=
        if idx < fc.1 then
          let text := String.mk (decodeUtf16le (byteSlice data idx (fc.1 - idx)))
          if text ≠ "" then [text] else []
        else []
      chunk ++ parse_para_text_chunks_go data fuel (if fc.2 > idx then fc.2 else idx + 2)
    else []

/-- `parse_para_text_chunks(data)`: text chunks of a PARA_TEXT payload, in
order, skipping control characters. -/
def parse_para_text_chunks (data : List Nat) : List String :=
  parse_para_text_chunks_go data data.length 0

/-! ## Text cleaning (`clean_hwp_text`)

Python's `re.sub(r"[ \t]+", " ", ·)` and `re.sub(r"\s+", " ", ·)` replace
every maximal run of matching characters by one space; both are embedded as
`collapseRun` over the appropriate character class.  `re.sub(r"\n{3,}",
"\n\n", ·)` caps runs of newlines at two.  `str.strip()` removes leading
and trailing Python whitespace. -/

/-- Python's Unicode whitespace class, as used by `str.strip()` and by
`\s` in `re` patterns over `str`. -/
def pyIsSpace (c : Char) : Bool :=
  let n := c.toNat
  (9 ≤ n && n ≤ 13) || n == 32 || (28 ≤ n && n ≤ 31) || n == 0x85 || n == 0xA0 ||
    n == 0x1680 || (0x2000 ≤ n && n ≤ 0x200A) || n == 0x2028 || n == 0x2029 ||
    n == 0x202F || n == 0x205F || n == 0x3000

/-- Characters matched by the pattern `[ \t]`. -/
def isST (c : Char) : Bool := c == ' ' || c == '\t'

/-- Characters removed in cleaning step 2 (BOM and zero-width characters). -/
def isZeroWidth (c : Char) : Bool :=
  c == '\uFEFF' || c == '\u200B' || c == '\u200C' || c == '\u200D'

/-- Step 1 of `clean_hwp_text` for one character: keep codes ≥ 32, keep
tab/LF/CR (LF and CR become spaces inside a table), replace placeholder
control codes (`CONTROL_PLACEHOLDERS`, empty placeholders dropped), drop
everything else. -/
def cleanChar (in_table : Bool) (c : Char) : List Char :=
  if 32 ≤ c.toNat then [c]
  else if c.toNat = 9 ∨ c.toNat = 10 ∨ c.toNat = 13 then
    if in_table ∧ (c.toNat = 10 ∨ c.toNat = 13) then [' '] else [c]
  else if c.toNat = 0x0B ∨ c.toNat = 0x10 ∨ c.toNat = 0x11 then []
  else if c.toNat = 0x15 then ['\n']
  else if c.toNat = 0x18 then ['-']
  else if c.toNat = 0x1E then [' ']
  else if c.toNat = 0x1F then [' ']
  else []

/-- Replace every maximal run of characters satisfying `p` by a single
space (the effect of `re.sub` with pattern `(class)+` and replacement
`" "`).  The flag records whether the previous character was in the run. -/
def collapseRun (p : Char → Bool) : Bool → List Char → List Char
  | _, [] => []
  | prev, c :: rest =>
    if p c then
      if prev then collapseRun p true rest
      else ' ' :: collapseRun p true rest
    else c :: collapseRun p false rest

/-- Replace every run of three or more newlines by exactly two
(`re.sub(r"\n{3,}", "\n\n", ·)`).  `k` counts newlines already emitted in
the current run. -/
def collapseNL (p : Nat) : List Char → List Char
  | [] => []
  | c :: rest =>
    if c = '\n' then
      if 2 ≤ p then collapseNL p rest
      else '\n' :: collapseNL (p + 1) rest
    else c :: collapseNL 0 rest

/-- `text.replace("\n", " ").replace("\r", " ")`. -/
def mapNLCR (l : List Char) : List Char :=
  l.map (fun c => if c = '\n' ∨ c = '\r' then ' ' else c)

/-- Remove trailing characters satisfying `p`. -/
def dropTrailing (p : Char → Bool) (l : List Char) : List Char :=
  (l.reverse.dropWhile p).reverse

/-- Python `str.strip()`. -/
def pyStrip (l : List Char) : List Char :=
  dropTrailing pyIsSpace (l.dropWhile pyIsSpace)

/-- Whitespace normalisation (step 3 of `clean_hwp_text`): inside a table
collapse space/tab runs, turn newlines and carriage returns into spaces and
collapse all whitespace runs; otherwise collapse space/tab runs and cap
newline runs at two. -/
def cleanStage3 (in_table : Bool) (l : List Char) : List Char :=
  if in_table then
    collapseRun pyIsSpace false (mapNLCR (collapseRun isST false l))
  else
    collapseNL 0 (collapseRun isST false l)

/-- `clean_hwp_text` on a character list: steps 1-3 followed by
`str.strip()`. -/
def cleanList (in_table : Bool) (l : List Char) : List Char :=
  pyStrip (cleanStage3 in_table ((l.flatMap (cleanChar in_table)).filter
    (fun c => !isZeroWidth c)))

/-- `clean_hwp_text(text, in_table)`. -/
def clean_hwp_text (s : String) (in_table : Bool) : String :=
  String.mk (cleanList in_table s.data)

/-! ### Shape predicates for cleaned text

These predicates are not part of the source; they characterise the output
of `clean_hwp_text` and are used to prove that cleaning is idempotent. -/

/-- The head, if any, does not satisfy `p`. -/
def headNot (p : Char → Bool) : List Char → Bool
  | [] => true
  | c :: _ => !p c

/-- The head exists and satisfies `p`. -/
def headIs (p : Char → Bool) : List Char → Bool
  | [] => false
  | c :: _ => p c

/-- The first two characters exist and both satisfy `p`. -/
def headIs2 (p : Char → Bool) : List Char → Bool
  | a :: b :: _ => p a && p b
  | _ => false

/-- No two adjacent characters both satisfy `p`. -/
def noDouble (p : Char → Bool) : List Char → Bool
  | a :: b :: rest => (!(p a && p b)) && noDouble p (b :: rest)
  | _ => true

/-- No three adjacent characters all satisfy `p`. -/
def noTriple (p : Char → Bool) : List Char → Bool
  | a :: b :: c :: rest => (!(p a && p b && p c)) && noTriple p (b :: c :: rest)
  | _ => true

/-- The newline character class. -/
def isNL (c : Char) : Bool := c == '\n'

/-- Shape of body-mode cleaned text: only printable characters, newlines
and carriage returns survive (tabs are collapsed away), no zero-width
characters, no two adjacent space/tab characters, no three adjacent
newlines, and no whitespace at either end. -/
def NormalBody (l : List Char) : Prop :=
  (∀ c ∈ l, (32 ≤ c.toNat ∨ c.toNat = 10 ∨ c.toNat = 13) ∧
    isZeroWidth c = false ∧ c.toNat ≠ 9) ∧
  noDouble isST l = true ∧ noTriple isNL l = true ∧
  headNot pyIsSpace l = true ∧ headNot pyIsSpace l.reverse = true

/-- Shape of table-mode cleaned text: only printable characters survive,
no zero-width characters, the only whitespace character is the plain
space, no two adjacent whitespace characters, and no whitespace at either
end. -/
def NormalTable (l : List Char) : Prop :=
  (∀ c ∈ l, 32 ≤ c.toNat ∧ isZeroWidth c = false ∧
    (pyIsSpace c = true → c = ' ')) ∧
  noDouble pyIsSpace l = true ∧
  headNot pyIsSpace l = true ∧ headNot pyIsSpace l.reverse = true

/-! ## Data classes -/

/-- Python dataclass `TableCell`. -/
structure TableCell where
  col : Nat
  row : Nat
  col_span : Nat
  row_span : Nat
  text : String
deriving DecidableEq

/-- Python dataclass `Table` (the rendering method `to_text` is out of
scope of the claims formalised here). -/
structure Table where
  row_count : Nat
  col_count : Nat
  cells : List TableCell
deriving DecidableEq

/-! ## Record framing (`read_record_header`, `parse_table_header`) -/

/-- `read_record_header(data, pos)`: `(some (tag_id, level, size), new_pos)`
on success, `(none, new_pos)` on truncation.  `& 0x3FF` is `% 1024`,
`(>> 10) & 0x3FF` is `/ 1024 % 1024`, `(>> 20) & 0xFFF` is
`/ 1048576 % 4096`.  When the inline size field is all-ones the real size
follows as a u32 (and the returned position has already advanced past the
first word, as in the Python code). -/
def read_record_header (data : List Nat) (pos : Nat) :
    Option (Nat × Nat × Nat) × Nat :=
  if pos + 4 > data.length then (none, pos)
  else
    let header := u32at data pos
    let tag_id := header % 1024
    let level := header / 1024 % 1024
    let size := header / 1048576 % 4096
    let pos1 := pos + 4
    if size = 0xFFF then
      if pos1 + 4 > data.length then (none, pos1)
      else (some (tag_id, level, u32at data pos1), pos1 + 4)
    else (some (tag_id, level, size), pos1)

/-- `parse_table_header(data, pos)`: `(row_count, col_count, new_position)`;
the first four payload bytes are skipped. -/
def parse_table_header (data : List Nat) (pos : Nat) : Nat × Nat × Nat :=
  if pos + 8 > data.length then (0, 0, pos)
  else (u16at data (pos + 4), u16at data (pos + 6), pos + 8)

/-! ## Table cell parsing (`parse_cell_list`) -/

/-- Inner loop of `parse_cell_list`: scan records from `pos` up to `stop`,
collecting, for every `PARA_TEXT` record, its chunks cleaned in table mode
(empty results discarded).  The record cursor advances by at least four
bytes per iteration, so `stop - pos` fuel units suffice. -/
def collect_cell_text_go (data : List Nat) (stop : Nat) : Nat → Nat → List String
  | 0, _ => []
  | fuel + 1, pos =>
    if pos < stop then
      match read_record_header data pos with
      | (none, _) => []
      | (some (para_tag, _, para_size), para_pos) =>
        if para_pos + para_size > data.length then []
        else
          let here : List String :=
            if para_tag = HWPTAG_PARA_TEXT then
              (((parse_para_text_chunks (byteSlice data para_pos para_size)).map
                  (fun t => clean_hwp_text t true)).filter (fun t => t ≠ ""))
            else []
          here ++ collect_cell_text_go data stop fuel (para_pos + para_size)
    else []

/-- The `text_parts` list accumulated for one cell: `PARA_TEXT` chunks,
cleaned in table mode, from the records scanned in `[start, stop)`. -/
def collect_cell_text (data : List Nat) (start stop : Nat) : List String :=
  collect_cell_text_go data stop (stop - start) start

/-- Outer loop of `parse_cell_list`: scan records in `[pos, stop)`; a
`LIST_HEADER` record at `level + 1` with at least 26 payload bytes
available yields a `TableCell` whose four u16 fields come from the start of
the payload and whose text joins the parts collected between
`cell_pos + size` (the end of the cell header region, `cell_data_pos` in
the source) and `new_pos + size` (the record's end offset, `cell_end_pos`);
since `cell_pos = new_pos`, those two offsets coincide. -/
def parse_cell_list_go (data : List Nat) (stop level : Nat) :
    Nat → Nat → List TableCell
  | 0, _ => []
  | fuel + 1, pos =>
    if pos < stop then
      match read_record_header data pos with
      | (none, _) => []
      | (some (tag_id, rec_level, size), new_pos) =>
        if new_pos + size > data.length then []
        else
          let here : List TableCell :=
            if tag_id = HWPTAG_LIST_HEADER ∧ rec_level = level + 1 then
              let cell_pos := new_pos
              if cell_pos + 26 ≤ data.length then
                let col := u16at data cell_pos
                let row := u16at data (cell_pos + 2)
                let col_span := u16at data (cell_pos + 4)
                let row_span := u16at data (cell_pos + 6)
                let text_parts := collect_cell_text data (cell_pos + size) (new_pos + size)
                [⟨col, row, col_span, row_span, String.intercalate " " text_parts⟩]
              else []
            else []
          here ++ parse_cell_list_go data stop level fuel (new_pos + size)
    else []

/-- `parse_cell_list(data, pos, end, level)`. -/
def parse_cell_list (data : List Nat) (pos stop level : Nat) : List TableCell :=
  parse_cell_list_go data stop level (stop - pos) pos

/-! ## Section extraction (`extract_content_from_section`) -/

/-- The zlib decompression attempts of `extract_content_from_section`:
`zlib.decompress` is external to the repository and is modelled as an
oracle `dec` mapping window-bit setting and input to `some output` on
success and `none` on failure.  Settings `-15`, `15`, `0` are tried in
order; the first success supplies the bytes, otherwise the raw bytes are
kept (the `Bool` is the `decompressed` flag). -/
def tryDecompress (dec : Int → List Nat → Option (List Nat))
    (data : List Nat) : List Nat × Bool :=
  match dec (-15) data with
  | some r => (r, true)
  | none =>
    match dec 15 data with
    | some r => (r, true)
    | none =>
      match dec 0 data with
      | some r => (r, true)
      | none => (data, false)

/-- Record loop of `extract_content_from_section` over the (possibly
decompressed) section bytes.  `PARA_TEXT` records emit their cleaned
non-empty chunks as paragraphs; `TABLE` records with positive row and
column counts and a non-empty cell list emit a `Table`; `PARA_HEADER`
records only set `current_para_nchars`, a variable the Python code never
reads, so the branch has no observable effect and is subsumed by the
catch-all case here. -/
def extract_records_go (data : List Nat) : Nat → Nat → List String × List Table
  | 0, _ => ([], [])
  | fuel + 1, pos =>
    if pos < data.length then
      match read_record_header data pos with
      | (none, _) => ([], [])
      | (some (tag_id, level, size), new_pos) =>
        if new_pos + size > data.length then ([], [])
        else
          let rest := extract_records_go data fuel (new_pos + size)
          if tag_id = HWPTAG_PARA_TEXT then
            let paras := ((parse_para_text_chunks (byteSlice data new_pos size)).map
                (fun t => clean_hwp_text t false)).filter (fun t => t ≠ "")
            (paras ++ rest.1, rest.2)
          else if tag_id = HWPTAG_TABLE then
            match parse_table_header data new_pos with
            | (rows, cols, tpos) =>
              if 0 < rows ∧ 0 < cols then
                let cells := parse_cell_list data tpos (new_pos + size) level
                if cells ≠ [] then (rest.1, ⟨rows, cols, cells⟩ :: rest.2)
                else rest
              else rest
          else rest
    else ([], [])

/-- `extract_content_from_section` after the stream has been read: attempt
decompression, then run the record loop (console logging omitted). -/
def extract_content_from_section (dec : Int → List Nat → Option (List Nat))
    (section_data : List Nat) : List String × List Table :=
  let d := (tryDecompress dec section_data).1
  extract_records_go d d.length 0

/-! ## OLE compound file reader (ole.py)

The `OleReader` constructor (header parse, DIFAT/FAT load, directory walk,
MiniFAT/MiniStream load) eagerly populates the reader's state; the claims
formalised here are about the accessor methods `list_streams`, `exists` and
`read_stream` and the chain reader `_read_chain`, so the state is modelled
as a structure holding the fields those methods consult: the raw file
bytes, the header-derived sizes, the FAT and MiniFAT tables, the MiniStream
blob, and the full-path directory lookup (a Python dict, modelled as an
association list with first-match lookup). -/

/-- Sector id constants from the MS-CFB specification. -/
def FREE_SECTOR : Nat := 0xFFFFFFFF
def END_OF_CHAIN : Nat := 0xFFFFFFFE
def FAT_SECTOR : Nat := 0xFFFFFFFD
def DIFAT_SECTOR : Nat := 0xFFFFFFFC

/-- Failure kinds surfaced by the reader: `notFound` is Python's
`FileNotFoundError` raised by `read_stream`, `ioError` the `IOError` raised
by `_read_exact_at`, `structError` the `struct.error` raised by unpacking a
short byte string. -/
inductive PyErr where
  | notFound
  | ioError
  | structError
deriving DecidableEq

/-- Why a chain walk stopped (instrumentation for the hop-limit claim): a
reserved sector id, a sid beyond the FAT (`broken FAT, stop`), or the
defensive hop limit running out. -/
inductive StopReason where
  | reservedSid
  | brokenFat
  | hopLimit
deriving DecidableEq

/-- The directory-entry fields `read_stream` consults. -/
structure DirEntry where
  start_sector : Nat
  stream_size : Nat
deriving DecidableEq

/-- State of an `OleReader` after construction. -/
structure OleReader where
  file : List Nat
  sector_size : Nat
  mini_sector_size : Nat
  mini_stream_cutoff : Nat
  fat : List Nat
  minifat : List Nat
  mini_stream_data : List Nat
  dir_lookup : List (String × DirEntry)

/-- `self.dir_lookup.get(path)`. -/
def dirLookup (r : OleReader) (path : String) : Option DirEntry :=
  List.lookup path r.dir_lookup

/-- `_read_exact_at(offset, size)`: the bytes at `[offset, offset+size)`, or
`IOError` when fewer than `size` bytes are available. -/
def read_exact_at (r : OleReader) (offset size : Nat) : Except PyErr (List Nat) :=
  if ((r.file.drop offset).take size).length = size then
    .ok ((r.file.drop offset).take size)
  else .error .ioError

/-- `_read_sector(sid)`: sector `sid` starts at file offset
`512 + sid * sector_size` (sector ids are unsigned here, so the negative-id
check of the source cannot fire). -/
def read_sector (r : OleReader) (sid : Nat) : Except PyErr (List Nat) :=
  read_exact_at r (512 + sid * r.sector_size) r.sector_size

/-- `read_mini_sector(mini_sid)`: a 64-byte-aligned slice of the MiniStream
blob (a Python slice, so it is silently short near the end). -/
def read_mini_sector (r : OleReader) (sid : Nat) : Except PyErr (List Nat) :=
  .ok ((r.mini_stream_data.drop (sid * r.mini_sector_size)).take r.mini_sector_size)

/-- The defensive loop guard of `_read_chain`. -/
def max_hops : Nat := 1000000

/-- The `while` loop of `_read_chain`: follow `fat` successors from `sid`,
concatenating each visited sector, until a reserved sid, an out-of-range
sid (`sid >= len(fat)`), or hop exhaustion.  Returns the bytes, the number
of sector advances (`sid = fat[sid]` steps) performed, and why the walk
stopped. -/
def chainGo (readOne : Nat → Except PyErr (List Nat)) (fat : List Nat) :
    Nat → Nat → Except PyErr (List Nat × Nat × StopReason)
  | sid, 0 =>
    if sid = FREE_SECTOR ∨ sid = END_OF_CHAIN then .ok ([], 0, .reservedSid)
    else .ok ([], 0, .hopLimit)
  | sid, fuel + 1 =>
    if sid = FREE_SECTOR ∨ sid = END_OF_CHAIN then .ok ([], 0, .reservedSid)
    else
      match readOne sid with
      | .error e => .error e
      | .ok sec =>
        if sid < fat.length then
          match chainGo readOne fat (fat.getD sid 0) fuel with
          | .error e => .error e
          | .ok out => .ok (sec ++ out.1, out.2.1 + 1, out.2.2)
        else .ok (sec, 0, .brokenFat)

/-- Truncation to the expected total size (`data[:size]` when a size was
given). -/
def trimTo : Option Nat → List Nat → List Nat
  | some s, d => d.take s
  | none, d => d

/-- `_read_chain(start_sector, size, use_mini)`. -/
def read_chain (r : OleReader) (start_sector : Nat) (size : Option Nat)
    (use_mini : Bool) : Except PyErr (List Nat) :=
  if start_sector = FREE_SECTOR ∨ start_sector = END_OF_CHAIN then .ok []
  else if use_mini then
    if r.minifat = [] ∨ r.mini_stream_data = [] then .ok []
    else (chainGo (read_mini_sector r) r.minifat start_sector max_hops).map
      (fun out => trimTo size out.1)
  else (chainGo (read_sector r) r.fat start_sector max_hops).map
    (fun out => trimTo size out.1)

/-- String insertion sort implementing Python's `sorted` on the lookup's
keys. -/
def insertSorted (s : String) : List String → List String
  | [] => [s]
  | t :: rest => if s ≤ t then s :: t :: rest else t :: insertSorted s rest

/-- Sort a list of strings. -/
def sortStrings : List String → List String
  | [] => []
  | s :: rest => insertSorted s (sortStrings rest)

/-- `list_streams()`: the sorted full paths registered in the directory
lookup. -/
def list_streams (r : OleReader) : List String :=
  sortStrings (r.dir_lookup.map Prod.fst)

/-- `exists(path)` (named `stream_exists` because `exists` is reserved in
Lean). -/
def stream_exists (r : OleReader) (path : String) : Bool :=
  (dirLookup r path).isSome

/-- `read_stream(path)`: `NotFound` outside the lookup; empty bytes for a
reserved start sector or zero size; otherwise a chain read routed through
the MiniFAT exactly when `stream_size < mini_stream_cutoff`. -/
def read_stream (r : OleReader) (path : String) : Except PyErr (List Nat) :=
  match dirLookup r path with
  | none => .error .notFound
  | some entry =>
    if entry.start_sector = FREE_SECTOR ∨ entry.start_sector = END_OF_CHAIN ∨
        entry.stream_size = 0 then .ok []
    else
      read_chain r entry.start_sector (some entry.stream_size)
        (decide (entry.stream_size < r.mini_stream_cutoff))

/-! ## `read_hwp_metadata` (parser.py) -/

/-- The dictionary returned by `read_hwp_metadata`. -/
structure HwpMeta where
  version : Option String
  compressed : Option Bool
deriving DecidableEq

/-- `read_hwp_metadata(ole)`: `{version: None, compressed: None}` when no
`FileHeader` stream is listed; otherwise read the stream, unpack the
version word at offset 32 (a `struct.error` if fewer than four bytes are
available there) and the flags word at offset 36 when present. -/
def read_hwp_metadata (r : OleReader) : Except PyErr HwpMeta :=
  if "FileHeader" ∉ list_streams r then .ok ⟨none, none⟩
  else
    match read_stream r "FileHeader" with
    | .error e => .error e
    | .ok data =>
      if (byteSlice data 32 4).length = 4 then
        let version := u32at data 32
        let major := version / 16777216 % 256
        let minor := version / 65536 % 256
        let build := version / 256 % 256
        let revision := version % 256
        let flags := if 40 ≤ data.length then u32at data 36 else 0
        .ok ⟨some s!"{major}.{minor}.{build}.{revision}", some (flags % 2 = 1)⟩
      else .error .structError

/-! ## Concrete inputs used in witnesses and counterexamples -/

/-- Decompression oracle on which all three window-bit attempts fail (an
uncompressed section). -/
def no_decompress : Int → List Nat → Option (List Nat) := fun _ _ => none

/-- A 42-byte section consisting of one `TABLE` record (tag `0x4D`, level 0,
size 38) declaring a 1×1 table, containing one `LIST_HEADER` record (tag
`0x48`, level 1, size 26) whose cell header reads `col = 0`, `row = 0`,
`col_span = cs`, `row_span = rs`. -/
def mk_table_section (cs rs : Nat) : List Nat :=
  [0x4D, 0x00, 0x60, 0x02,
   0, 0, 0, 0, 1, 0, 1, 0,
   0x48, 0x04, 0xA0, 0x01,
   0, 0, 0, 0, cs % 256, cs / 256, rs % 256, rs / 256,
   0, 0, 0, 0, 0, 0, 0, 0, 0, 0, 0, 0, 0, 0, 0, 0, 0, 0]

/-- A reader whose directory lists stream `X` with `stream_size = 1` but a
reserved (`END_OF_CHAIN`) start sector, as a corrupted container's
directory can record. -/
def oleShort : OleReader :=
  { file := [], sector_size := 512, mini_sector_size := 64,
    mini_stream_cutoff := 4096, fat := [], minifat := [],
    mini_stream_data := [], dir_lookup := [("X", ⟨END_OF_CHAIN, 1⟩)] }

/-- A reader whose directory lists stream `Y` with `stream_size = 1` and
start sector `0` — a valid mini-sector index, whose single byte is `0x41`. -/
def oleZeroSid : OleReader :=
  { file := [], sector_size := 512, mini_sector_size := 64,
    mini_stream_cutoff := 4096, fat := [], minifat := [END_OF_CHAIN],
    mini_stream_data := [0x41], dir_lookup := [("Y", ⟨0, 1⟩)] }

/-- A reader with an empty directory. -/
def oleEmpty : OleReader :=
  { file := [], sector_size := 512, mini_sector_size := 64,
    mini_stream_cutoff := 4096, fat := [], minifat := [],
    mini_stream_data := [], dir_lookup := [] }

/-! # Helper lemmas -/

/-- A successful chain walk performs at most `fuel` sector advances. -/
theorem chainGo_advances_le (readOne : Nat → Except PyErr (List Nat))
    (fat : List Nat) :
    ∀ (fuel sid : Nat) (out : List Nat × Nat × StopReason),
      chainGo readOne fat sid fuel = .ok out → out.2.1 ≤ fuel := by
  intro fuel
  induction fuel with
  | zero =>
    intro sid out h
    unfold chainGo at h
    split at h <;> (injection h with h; subst h; simp)
  | succ n ih =>
    intro sid out h
    unfold chainGo at h
    split at h
    · injection h with h; subst h; simp
    · cases hr : readOne sid with
      | error e => rw [hr] at h; simp [Except.bind] at h
      | ok sec =>
        rw [hr] at h
        simp only [Except.bind] at h
        split at h
        · cases hrec : chainGo readOne fat (fat.getD sid 0) n with
          | error e => rw [hrec] at h; simp at h
          | ok out2 =>
            rw [hrec] at h
            simp at h
            subst h
            have := ih _ _ hrec
            simpa using Nat.succ_le_succ this
        · injection h with h; subst h; simp

/-- A failing chain walk only propagates its reader's errors. -/
theorem chainGo_error (readOne : Nat → Except PyErr (List Nat))
    (fat : List Nat)
    (hro : ∀ s e, readOne s = .error e → e = .ioError) :
    ∀ (fuel sid : Nat) (e : PyErr),
      chainGo readOne fat sid fuel = .error e → e = .ioError := by
  intro fuel
  induction fuel with
  | zero =>
    intro sid e h
    unfold chainGo at h
    split at h <;> exact absurd h (by simp)
  | succ n ih =>
    intro sid e h
    unfold chainGo at h
    split at h
    · exact absurd h (by simp)
    · cases hr : readOne sid with
      | error e2 =>
        rw [hr] at h
        simp [Except.bind] at h
        exact h ▸ hro _ _ hr
      | ok sec =>
        rw [hr] at h
        simp only [Except.bind] at h
        split at h
        · cases hrec : chainGo readOne fat (fat.getD sid 0) n with
          | error e2 =>
            rw [hrec] at h
            simp at h
            exact h ▸ ih _ _ hrec
          | ok out2 => rw [hrec] at h; simp at h
        · exact absurd h (by simp)

/-- `_read_sector` only fails with `IOError`. -/
theorem read_sector_error (r : OleReader) (sid : Nat) (e : PyErr)
    (h : read_sector r sid = .error e) : e = .ioError := by
  unfold read_sector read_exact_at at h
  split at h
  · exact absurd h (by simp)
  · injection h with h; exact h.symm

/-- `_read_chain` only fails with `IOError`. -/
theorem read_chain_error (r : OleReader) (start : Nat) (size : Option Nat)
    (mini : Bool) (e : PyErr) (h : read_chain r start size mini = .error e) :
    e = .ioError := by
  unfold read_chain at h
  split at h
  · exact absurd h (by simp)
  split at h
  · split at h
    · exact absurd h (by simp)
    · cases hc : chainGo (read_mini_sector r) r.minifat start max_hops with
      | error e2 =>
        rw [hc] at h
        simp [Except.map] at h
        subst h
        exact chainGo_error _ _ (fun s e2 hh => by
          unfold read_mini_sector at hh; exact absurd hh (by simp)) _ _ _ hc
      | ok out => rw [hc] at h; simp [Except.map] at h
  · cases hc : chainGo (read_sector r) r.fat start max_hops with
    | error e2 =>
      rw [hc] at h
      simp [Except.map] at h
      subst h
      exact chainGo_error _ _ (fun s e2 hh => read_sector_error r s e2 hh) _ _ _ hc
    | ok out => rw [hc] at h; simp [Except.map] at h

/-- Membership in an insertion-sorted list. -/
theorem mem_insertSorted (a s : String) (l : List String) :
    a ∈ insertSorted s l ↔ a = s ∨ a ∈ l := by
  induction l with
  | nil => simp [insertSorted]
  | cons t rest ih =>
    unfold insertSorted
    split
    · simp
    · simp [ih]
      tauto

/-- Sorting preserves membership. -/
theorem mem_sortStrings (a : String) (l : List String) :
    a ∈ sortStrings l ↔ a ∈ l := by
  induction l with
  | nil => simp [sortStrings]
  | cons s rest ih => simp [sortStrings, mem_insertSorted, ih]

/-- The directory lookup succeeds exactly on the registered keys. -/
theorem dirLookup_isSome_iff (r : OleReader) (p : String) :
    (dirLookup r p).isSome ↔ p ∈ r.dir_lookup.map Prod.fst := by
  unfold dirLookup
  induction r.dir_lookup with
  | nil => simp [List.lookup]
  | cons kv rest ih =>
    obtain ⟨k, v⟩ := kv
    simp only [List.lookup, List.map_cons, List.mem_cons]
    by_cases hk : p = k
    · subst hk; simp
    · have : (p == k) = false := beq_false_of_ne hk
      rw [this]
      simp [ih, hk]

/-- A path is listed exactly when its lookup succeeds. -/
theorem mem_list_streams_iff (r : OleReader) (p : String) :
    p ∈ list_streams r ↔ (dirLookup r p).isSome := by
  rw [list_streams, mem_sortStrings, dirLookup_isSome_iff]

/-! C7 development: generic predicate lemmas -/

theorem headIs_eq_not_headNot (p : Char → Bool) (l : List Char) :
    headIs p l = !headNot p l := by
  cases l <;> simp [headIs, headNot]

theorem noDouble_cons (p : Char → Bool) (a : Char) (l : List Char) :
    noDouble p (a :: l) = ((!(p a && headIs p l)) && noDouble p l) := by
  cases l <;> simp [noDouble, headIs]

theorem headIs2_cons (p : Char → Bool) (a : Char) (l : List Char) :
    headIs2 p (a :: l) = (p a && headIs p l) := by
  cases l <;> simp [headIs2, headIs]

theorem noTriple_cons (p : Char → Bool) (a : Char) (l : List Char) :
    noTriple p (a :: l) = ((!(p a && headIs2 p l)) && noTriple p l) := by
  match l with
  | [] => simp [noTriple, headIs2]
  | [b] => simp [noTriple, headIs2]
  | b :: c :: rest => simp [noTriple, headIs2, Bool.and_assoc]

theorem noDouble_of_cons {p : Char → Bool} {a : Char} {l : List Char}
    (h : noDouble p (a :: l) = true) : noDouble p l = true := by
  rw [noDouble_cons, Bool.and_eq_true] at h
  exact h.2

theorem noTriple_of_cons {p : Char → Bool} {a : Char} {l : List Char}
    (h : noTriple p (a :: l) = true) : noTriple p l = true := by
  rw [noTriple_cons, Bool.and_eq_true] at h
  exact h.2

theorem noDouble_append_right {p : Char → Bool} :
    ∀ l₁ l₂ : List Char, noDouble p (l₁ ++ l₂) = true → noDouble p l₂ = true := by
  intro l₁
  induction l₁ with
  | nil => simp
  | cons a t ih => intro l₂ h; exact ih l₂ (noDouble_of_cons h)

theorem noTriple_append_right {p : Char → Bool} :
    ∀ l₁ l₂ : List Char, noTriple p (l₁ ++ l₂) = true → noTriple p l₂ = true := by
  intro l₁
  induction l₁ with
  | nil => simp
  | cons a t ih => intro l₂ h; exact ih l₂ (noTriple_of_cons h)

theorem headIs_append {p : Char → Bool} {l₁ l₂ : List Char} (hne : l₁ ≠ []) :
    headIs p (l₁ ++ l₂) = headIs p l₁ := by
  cases l₁ with
  | nil => exact absurd rfl hne
  | cons a t => simp [headIs]

theorem noDouble_append_left {p : Char → Bool} :
    ∀ l₁ l₂ : List Char, noDouble p (l₁ ++ l₂) = true → noDouble p l₁ = true := by
  intro l₁
  induction l₁ with
  | nil => intro l₂ _; rfl
  | cons a t ih =>
    intro l₂ h
    rw [List.cons_append, noDouble_cons, Bool.and_eq_true] at h
    obtain ⟨h1, h2⟩ := h
    rw [noDouble_cons, Bool.and_eq_true]
    refine ⟨?_, ih l₂ h2⟩
    cases t with
    | nil => simp [headIs]
    | cons b t' => rw [headIs_append (by simp)] at h1; exact h1

theorem headIs2_append {p : Char → Bool} {l₁ l₂ : List Char} (h2 : 2 ≤ l₁.length) :
    headIs2 p (l₁ ++ l₂) = headIs2 p l₁ := by
  match l₁ with
  | [] => simp at h2
  | [a] => simp at h2
  | a :: b :: t => simp [headIs2]

theorem noTriple_append_left {p : Char → Bool} :
    ∀ l₁ l₂ : List Char, noTriple p (l₁ ++ l₂) = true → noTriple p l₁ = true := by
  intro l₁
  induction l₁ with
  | nil => intro l₂ _; rfl
  | cons a t ih =>
    intro l₂ h
    rw [List.cons_append, noTriple_cons, Bool.and_eq_true] at h
    obtain ⟨h1, h2⟩ := h
    rw [noTriple_cons, Bool.and_eq_true]
    refine ⟨?_, ih l₂ h2⟩
    match t with
    | [] => simp [headIs2]
    | [b] => simp [headIs2]
    | b :: c :: t' => rw [headIs2_append (by simp)] at h1; exact h1

theorem noDouble_mono {p q : Char → Bool} (hqp : ∀ c, q c = true → p c = true) :
    ∀ l : List Char, noDouble p l = true → noDouble q l = true := by
  intro l
  induction l with
  | nil => intro _; rfl
  | cons a t ih =>
    intro h
    rw [noDouble_cons, Bool.and_eq_true] at h ⊢
    obtain ⟨h1, h2⟩ := h
    refine ⟨?_, ih h2⟩
    simp only [Bool.not_eq_true', Bool.and_eq_false_iff] at h1 ⊢
    rcases h1 with hpa | hht
    · left
      by_contra hq
      rw [Bool.not_eq_false] at hq
      rw [hqp a hq] at hpa
      cases hpa
    · right
      cases t with
      | nil => rfl
      | cons b t' =>
        simp only [headIs] at hht ⊢
        by_contra hq
        rw [Bool.not_eq_false] at hq
        rw [hqp b hq] at hht
        cases hht
/-! C7 development: collapseRun lemmas -/

theorem collapseRun_headNot_true (p : Char → Bool) :
    ∀ l : List Char, headNot p (collapseRun p true l) = true := by
  intro l
  induction l with
  | nil => rfl
  | cons c rest ih =>
    unfold collapseRun
    by_cases hc : p c = true
    · rw [if_pos hc, if_pos rfl]; exact ih
    · rw [if_neg hc]
      simp [headNot, hc]

theorem collapseRun_noDouble (p : Char → Bool) :
    ∀ (l : List Char) (b : Bool), noDouble p (collapseRun p b l) = true := by
  intro l
  induction l with
  | nil => intro b; rfl
  | cons c rest ih =>
    intro b
    unfold collapseRun
    by_cases hc : p c = true
    · rw [if_pos hc]
      cases b with
      | true => exact ih true
      | false =>
        rw [if_neg (show ¬(false = true) by simp)]
        rw [noDouble_cons, Bool.and_eq_true]
        constructor
        · rw [headIs_eq_not_headNot, collapseRun_headNot_true]
          simp
        · exact ih true
    · rw [if_neg hc]
      rw [noDouble_cons, Bool.and_eq_true]
      refine ⟨?_, ih false⟩
      simp [hc]

theorem collapseRun_mem (p : Char → Bool) :
    ∀ (l : List Char) (b : Bool) (c : Char),
      c ∈ collapseRun p b l → c ∈ l ∨ c = ' ' := by
  intro l
  induction l with
  | nil => intro b c h; simp [collapseRun] at h
  | cons a rest ih =>
    intro b c h
    unfold collapseRun at h
    by_cases ha : p a = true
    · rw [if_pos ha] at h
      cases b with
      | true =>
        rcases ih true c h with h' | h'
        · exact Or.inl (List.mem_cons_of_mem _ h')
        · exact Or.inr h'
      | false =>
        rw [if_neg (show ¬(false = true) by simp)] at h
        rcases List.mem_cons.mp h with h' | h'
        · exact Or.inr h'
        · rcases ih true c h' with h'' | h''
          · exact Or.inl (List.mem_cons_of_mem _ h'')
          · exact Or.inr h''
    · rw [if_neg ha] at h
      rcases List.mem_cons.mp h with h' | h'
      · exact Or.inl (h' ▸ List.mem_cons_self _ _)
      · rcases ih false c h' with h'' | h''
        · exact Or.inl (List.mem_cons_of_mem _ h'')
        · exact Or.inr h''

theorem collapseRun_pOnly (p : Char → Bool) :
    ∀ (l : List Char) (b : Bool) (c : Char),
      c ∈ collapseRun p b l → p c = true → c = ' ' := by
  intro l
  induction l with
  | nil => intro b c h; simp [collapseRun] at h
  | cons a rest ih =>
    intro b c h hpc
    unfold collapseRun at h
    by_cases ha : p a = true
    · rw [if_pos ha] at h
      cases b with
      | true => exact ih true c h hpc
      | false =>
        rw [if_neg (show ¬(false = true) by simp)] at h
        rcases List.mem_cons.mp h with h' | h'
        · exact h'
        · exact ih true c h' hpc
    · rw [if_neg ha] at h
      rcases List.mem_cons.mp h with h' | h'
      · rw [h'] at hpc; rw [hpc] at ha; exact absurd rfl ha
      · exact ih false c h' hpc

theorem collapseRun_eq_self (p : Char → Bool) :
    ∀ l : List Char, (∀ c ∈ l, p c = true → c = ' ') → noDouble p l = true →
      collapseRun p false l = l ∧
        (headNot p l = true → collapseRun p true l = l) := by
  intro l
  induction l with
  | nil => intro _ _; exact ⟨rfl, fun _ => rfl⟩
  | cons c rest ih =>
    intro hsp hnd
    have hrest := ih (fun d hd => hsp d (List.mem_cons_of_mem _ hd)) (noDouble_of_cons hnd)
    constructor
    · unfold collapseRun
      by_cases hc : p c = true
      · rw [if_pos hc]
        rw [if_neg (show ¬(false = true) by simp)]
        have hcsp : c = ' ' := hsp c (List.mem_cons_self _ _) hc
        have hhead : headNot p rest = true := by
          rw [noDouble_cons, Bool.and_eq_true] at hnd
          have h1 := hnd.1
          rw [hc] at h1
          simp only [Bool.not_eq_true', Bool.true_and] at h1
          rw [headIs_eq_not_headNot] at h1
          cases hnp : headNot p rest with
          | true => rfl
          | false => rw [hnp] at h1; simp at h1
        rw [hrest.2 hhead, hcsp]
      · rw [if_neg hc, hrest.1]
    · intro hh
      unfold collapseRun
      have hc : p c = false := by
        simp only [headNot, Bool.not_eq_true'] at hh
        exact hh
      rw [if_neg (by simp [hc]), hrest.1]
/-! C7 development: collapseNL lemmas -/

theorem collapseNL_noTriple :
    ∀ (l : List Char) (k : Nat),
      noTriple isNL (collapseNL k l) = true ∧
        (1 ≤ k → headIs2 isNL (collapseNL k l) = false) ∧
        (2 ≤ k → headIs isNL (collapseNL k l) = false) := by
  intro l
  induction l with
  | nil => intro k; exact ⟨rfl, fun _ => rfl, fun _ => rfl⟩
  | cons c rest ih =>
    intro k
    unfold collapseNL
    by_cases hc : c = '\n'
    · rw [if_pos hc]
      by_cases hk : 2 ≤ k
      · rw [if_pos hk]
        exact ⟨(ih k).1, fun _ => (ih k).2.1 (by omega), fun _ => (ih k).2.2 hk⟩
      · rw [if_neg hk]
        have ih1 := ih (k + 1)
        refine ⟨?_, ?_, ?_⟩
        · rw [noTriple_cons, Bool.and_eq_true]
          constructor
          · rw [ih1.2.1 (by omega)]
            simp
          · exact ih1.1
        · intro h1k
          have hk1 : k = 1 := by omega
          rw [headIs2_cons, ih1.2.2 (by omega)]
          simp
        · intro h2k
          exact absurd h2k hk
    · rw [if_neg hc]
      have hnl : isNL c = false := by
        simp [isNL, hc]
      refine ⟨?_, ?_, ?_⟩
      · rw [noTriple_cons, Bool.and_eq_true]
        exact ⟨by simp [hnl], (ih 0).1⟩
      · intro _
        rw [headIs2_cons, hnl]
        simp
      · intro _
        simp [headIs, hnl]

theorem collapseNL_noDouble {p : Char → Bool} (hpn : p '\n' = false) :
    ∀ (l : List Char) (k : Nat), noDouble p l = true →
      noDouble p (collapseNL k l) = true ∧
        (headIs p (collapseNL k l) = true → headIs p l = true ∨ 2 ≤ k) := by
  intro l
  induction l with
  | nil => intro k _; exact ⟨rfl, fun h => by simp [collapseNL, headIs] at h⟩
  | cons c rest ih =>
    intro k hnd
    have ihr := fun k' => ih k' (noDouble_of_cons hnd)
    unfold collapseNL
    by_cases hc : c = '\n'
    · rw [if_pos hc]
      by_cases hk : 2 ≤ k
      · rw [if_pos hk]
        exact ⟨(ihr k).1, fun _ => Or.inr hk⟩
      · rw [if_neg hk]
        refine ⟨?_, ?_⟩
        · rw [noDouble_cons, Bool.and_eq_true]
          exact ⟨by simp [hpn], (ihr (k + 1)).1⟩
        · intro hh
          simp only [headIs, hpn] at hh
          cases hh
    · rw [if_neg hc]
      refine ⟨?_, ?_⟩
      · rw [noDouble_cons, Bool.and_eq_true]
        refine ⟨?_, (ihr 0).1⟩
        by_cases hpc : p c = true
        · rw [hpc]
          simp only [Bool.true_and, Bool.not_eq_true']
          cases hhi : headIs p (collapseNL 0 rest) with
          | false => rfl
          | true =>
            rcases (ihr 0).2 hhi with hrest | habs
            · rw [noDouble_cons, Bool.and_eq_true] at hnd
              have := hnd.1
              rw [hpc, hrest] at this
              simp at this
            · omega
        · simp [Bool.not_eq_true] at hpc
          simp [hpc]
      · intro hh
        simp only [headIs] at hh ⊢
        exact Or.inl hh

theorem collapseNL_eq_self :
    ∀ (l : List Char) (k : Nat), noTriple isNL l = true →
      (k = 0 ∨ (k = 1 ∧ headIs2 isNL l = false) ∨ (2 ≤ k ∧ headIs isNL l = false)) →
      collapseNL k l = l := by
  intro l
  induction l with
  | nil => intro k _ _; rfl
  | cons c rest ih =>
    intro k hnt hk
    unfold collapseNL
    by_cases hc : c = '\n'
    · rw [if_pos hc]
      have hnlc : isNL c = true := by simp [isNL, hc]
      rcases hk with hk0 | ⟨hk1, hh2⟩ | ⟨hk2, hh1⟩
      · subst hk0
        rw [if_neg (by omega), hc]
        congr 1
        apply ih 1 (noTriple_of_cons hnt)
        right; left
        refine ⟨rfl, ?_⟩
        rw [noTriple_cons, Bool.and_eq_true] at hnt
        have h1 := hnt.1
        rw [hnlc] at h1
        simp only [Bool.true_and, Bool.not_eq_true'] at h1
        exact h1
      · subst hk1
        rw [if_neg (by omega), hc]
        congr 1
        apply ih 2 (noTriple_of_cons hnt)
        right; right
        refine ⟨by omega, ?_⟩
        rw [headIs2_cons, hnlc] at hh2
        simpa using hh2
      · rw [headIs, hnlc] at hh1
        cases hh1
    · rw [if_neg hc]
      congr 1
      exact ih 0 (noTriple_of_cons hnt) (Or.inl rfl)

theorem mapNLCR_mem :
    ∀ (l : List Char) (c : Char), c ∈ mapNLCR l →
      (c ∈ l ∧ c ≠ '\n' ∧ c ≠ '\r') ∨ c = ' ' := by
  intro l c h
  rcases List.mem_map.mp h with ⟨x, hx, hfx⟩
  by_cases hnl : x = '\n' ∨ x = '\r'
  · right
    rw [← hfx]
    simp [hnl]
  · left
    push_neg at hnl
    rw [← hfx]
    simp only [if_neg (by tauto : ¬(x = '\n' ∨ x = '\r'))]
    exact ⟨hx, hnl.1, hnl.2⟩

theorem mapNLCR_eq_self :
    ∀ l : List Char, (∀ c ∈ l, c ≠ '\n' ∧ c ≠ '\r') → mapNLCR l = l := by
  intro l
  induction l with
  | nil => intro _; rfl
  | cons a t ih =>
    intro h
    unfold mapNLCR at ih ⊢
    simp only [List.map_cons]
    rw [if_neg (by have := h a (List.mem_cons_self _ _); tauto),
      ih (fun c hc => h c (List.mem_cons_of_mem _ hc))]
/-! C7 development: strip lemmas and pointwise identity lemmas -/

theorem dropWhile_headNot (p : Char → Bool) :
    ∀ l : List Char, headNot p (l.dropWhile p) = true := by
  intro l
  induction l with
  | nil => rfl
  | cons c rest ih =>
    rw [List.dropWhile_cons]
    by_cases hc : p c = true
    · rw [if_pos hc]; exact ih
    · rw [if_neg hc]; simp [headNot, hc]

theorem dropWhile_suffix (p : Char → Bool) :
    ∀ l : List Char, ∃ t, t ++ l.dropWhile p = l := by
  intro l
  induction l with
  | nil => exact ⟨[], rfl⟩
  | cons c rest ih =>
    rw [List.dropWhile_cons]
    by_cases hc : p c = true
    · rw [if_pos hc]
      obtain ⟨t, ht⟩ := ih
      exact ⟨c :: t, by rw [List.cons_append, ht]⟩
    · rw [if_neg hc]
      exact ⟨[], rfl⟩

theorem dropTrailing_prefix (p : Char → Bool) (l : List Char) :
    ∃ t, dropTrailing p l ++ t = l := by
  obtain ⟨t, ht⟩ := dropWhile_suffix p l.reverse
  refine ⟨t.reverse, ?_⟩
  have h2 := congrArg List.reverse ht
  rwa [List.reverse_append, List.reverse_reverse] at h2

theorem dropWhile_eq_self {p : Char → Bool} {l : List Char}
    (h : headNot p l = true) : l.dropWhile p = l := by
  cases l with
  | nil => rfl
  | cons c rest =>
    simp only [headNot, Bool.not_eq_true'] at h
    rw [List.dropWhile_cons, if_neg (by simp [h])]

theorem dropTrailing_eq_self {p : Char → Bool} {l : List Char}
    (h : headNot p l.reverse = true) : dropTrailing p l = l := by
  rw [dropTrailing, dropWhile_eq_self h, List.reverse_reverse]

theorem pyStrip_eq_self {l : List Char} (h1 : headNot pyIsSpace l = true)
    (h2 : headNot pyIsSpace l.reverse = true) : pyStrip l = l := by
  rw [pyStrip, dropWhile_eq_self h1, dropTrailing_eq_self h2]

theorem headNot_of_prefix {p : Char → Bool} {x t y : List Char}
    (hxy : x ++ t = y) (h : headNot p y = true) : headNot p x = true := by
  cases x with
  | nil => rfl
  | cons a x' =>
    rw [← hxy] at h
    exact h

theorem pyStrip_headNot (l : List Char) :
    headNot pyIsSpace (pyStrip l) = true := by
  obtain ⟨t, ht⟩ := dropTrailing_prefix pyIsSpace (l.dropWhile pyIsSpace)
  exact headNot_of_prefix ht (dropWhile_headNot pyIsSpace l)

theorem pyStrip_reverse_headNot (l : List Char) :
    headNot pyIsSpace (pyStrip l).reverse = true := by
  rw [pyStrip, dropTrailing, List.reverse_reverse]
  exact dropWhile_headNot pyIsSpace _

theorem pyStrip_noDouble {p : Char → Bool} {l : List Char}
    (h : noDouble p l = true) : noDouble p (pyStrip l) = true := by
  obtain ⟨t, ht⟩ := dropWhile_suffix pyIsSpace l
  have hd : noDouble p (l.dropWhile pyIsSpace) = true :=
    noDouble_append_right t _ (ht.symm ▸ h)
  obtain ⟨t', ht'⟩ := dropTrailing_prefix pyIsSpace (l.dropWhile pyIsSpace)
  exact noDouble_append_left _ t' (ht'.symm ▸ hd)

theorem pyStrip_noTriple {p : Char → Bool} {l : List Char}
    (h : noTriple p l = true) : noTriple p (pyStrip l) = true := by
  obtain ⟨t, ht⟩ := dropWhile_suffix pyIsSpace l
  have hd : noTriple p (l.dropWhile pyIsSpace) = true :=
    noTriple_append_right t _ (ht.symm ▸ h)
  obtain ⟨t', ht'⟩ := dropTrailing_prefix pyIsSpace (l.dropWhile pyIsSpace)
  exact noTriple_append_left _ t' (ht'.symm ▸ hd)

theorem pyStrip_mem {l : List Char} {c : Char} (h : c ∈ pyStrip l) : c ∈ l := by
  obtain ⟨t', ht'⟩ := dropTrailing_prefix pyIsSpace (l.dropWhile pyIsSpace)
  obtain ⟨t, ht⟩ := dropWhile_suffix pyIsSpace l
  have h1 : c ∈ l.dropWhile pyIsSpace := by
    rw [← ht']
    exact List.mem_append_left _ h
  rw [← ht]
  exact List.mem_append_right _ h1

theorem flatMap_eq_self {f : Char → List Char} :
    ∀ l : List Char, (∀ c ∈ l, f c = [c]) → l.flatMap f = l := by
  intro l
  induction l with
  | nil => intro _; rfl
  | cons c rest ih =>
    intro h
    rw [List.flatMap_cons, h c (List.mem_cons_self _ _),
      ih (fun d hd => h d (List.mem_cons_of_mem _ hd))]
    rfl
/-! C7 development: character classification lemmas -/

theorem char_toNat_inj {a b : Char} (h : a.toNat = b.toNat) : a = b := by
  have h2 := congrArg Char.ofNat h
  rwa [Char.ofNat_toNat, Char.ofNat_toNat] at h2

theorem char_eq_tab {c : Char} (h : c.toNat = 9) : c = '\t' :=
  char_toNat_inj (by rw [h]; rfl)

theorem char_eq_lf {c : Char} (h : c.toNat = 10) : c = '\n' :=
  char_toNat_inj (by rw [h]; rfl)

theorem char_eq_cr {c : Char} (h : c.toNat = 13) : c = '\r' :=
  char_toNat_inj (by rw [h]; rfl)

theorem cleanChar_mem_class {m : Bool} {c d : Char} (h : d ∈ cleanChar m c) :
    32 ≤ d.toNat ∨ d.toNat = 9 ∨ d.toNat = 10 ∨ (m = false ∧ d.toNat = 13) := by
  unfold cleanChar at h
  split_ifs at h with h1 h2 h3 h4 h5 h6 h7 h8 <;>
    simp only [List.mem_singleton, List.not_mem_nil] at h
  · left; rw [h]; exact h1
  · left; rw [h]; decide
  · rcases h2 with h9 | h10 | h13
    · right; left; rw [h]; exact h9
    · right; right; left; rw [h]; exact h10
    · right; right; right
      refine ⟨?_, by rw [h]; exact h13⟩
      cases hm : m with
      | false => rfl
      | true =>
        exfalso
        exact h3 ⟨by rw [hm], Or.inr h13⟩
  · right; right; left; rw [h]; decide
  · left; rw [h]; decide
  · left; rw [h]; decide
  · left; rw [h]; decide

theorem cleanChar_eq_self_of_ge (m : Bool) (c : Char) (h : 32 ≤ c.toNat) :
    cleanChar m c = [c] := by
  unfold cleanChar
  rw [if_pos h]

theorem cleanChar_eq_self_body {c : Char} (h : c.toNat = 10 ∨ c.toNat = 13) :
    cleanChar false c = [c] := by
  unfold cleanChar
  rw [if_neg (by omega), if_pos (by tauto), if_neg (by simp)]
/-! C7 development: establishment of the shape predicates -/

theorem collapseNL_mem :
    ∀ (l : List Char) (k : Nat) (c : Char), c ∈ collapseNL k l → c ∈ l := by
  intro l
  induction l with
  | nil => intro k c h; simp [collapseNL] at h
  | cons a rest ih =>
    intro k c h
    unfold collapseNL at h
    by_cases ha : a = '\n'
    · rw [if_pos ha] at h
      by_cases hk : 2 ≤ k
      · rw [if_pos hk] at h
        exact List.mem_cons_of_mem _ (ih k c h)
      · rw [if_neg hk] at h
        rcases List.mem_cons.mp h with h' | h'
        · rw [h', ← ha]
          exact List.mem_cons_self _ _
        · exact List.mem_cons_of_mem _ (ih (k + 1) c h')
    · rw [if_neg ha] at h
      rcases List.mem_cons.mp h with h' | h'
      · rw [h']
        exact List.mem_cons_self _ _
      · exact List.mem_cons_of_mem _ (ih 0 c h')

theorem cleanStage3_body (x : List Char) :
    cleanStage3 false x = collapseNL 0 (collapseRun isST false x) := rfl

theorem cleanStage3_table (x : List Char) :
    cleanStage3 true x = collapseRun pyIsSpace false (mapNLCR (collapseRun isST false x)) := rfl

theorem cleanList_normal_body (l : List Char) : NormalBody (cleanList false l) := by
  unfold cleanList
  rw [cleanStage3_body]
  set L2 := (l.flatMap (cleanChar false)).filter (fun c => !isZeroWidth c) with hL2
  have hA2 : ∀ c ∈ L2,
      (32 ≤ c.toNat ∨ c.toNat = 9 ∨ c.toNat = 10 ∨ c.toNat = 13) ∧
        isZeroWidth c = false := by
    intro c hc
    rw [hL2] at hc
    have hzw : isZeroWidth c = false := by
      have := List.of_mem_filter hc
      simpa using this
    refine ⟨?_, hzw⟩
    have hmem := List.mem_of_mem_filter hc
    rcases List.mem_flatMap.mp hmem with ⟨a, _, hca⟩
    rcases cleanChar_mem_class hca with h | h | h | ⟨_, h⟩ <;> tauto
  set L3 := collapseRun isST false L2 with hL3
  have hA3 : ∀ c ∈ L3,
      (32 ≤ c.toNat ∨ c.toNat = 10 ∨ c.toNat = 13) ∧
        isZeroWidth c = false ∧ c.toNat ≠ 9 := by
    intro c hc
    have hc9 : c.toNat ≠ 9 := by
      intro h9
      have hst : isST c = true := by
        rw [char_eq_tab h9]
        rfl
      have := collapseRun_pOnly isST L2 false c (hL3 ▸ hc) hst
      rw [this] at h9
      simp at h9
    rcases collapseRun_mem isST L2 false c (hL3 ▸ hc) with hcm | hsp
    · rcases hA2 c hcm with ⟨hcls, hzw⟩
      refine ⟨?_, hzw, hc9⟩
      rcases hcls with h | h | h | h
      · tauto
      · exact absurd h hc9
      · tauto
      · tauto
    · rw [hsp]
      refine ⟨by decide, by decide, by decide⟩
  have hND3 : noDouble isST L3 = true := collapseRun_noDouble isST L2 false
  set L4 := collapseNL 0 L3 with hL4
  have hA4 : ∀ c ∈ L4,
      (32 ≤ c.toNat ∨ c.toNat = 10 ∨ c.toNat = 13) ∧
        isZeroWidth c = false ∧ c.toNat ≠ 9 := by
    intro c hc
    exact hA3 c (collapseNL_mem L3 0 c (hL4 ▸ hc))
  have hND4 : noDouble isST L4 = true :=
    (collapseNL_noDouble (by decide) L3 0 hND3).1
  have hNT4 : noTriple isNL L4 = true := (collapseNL_noTriple L3 0).1
  refine ⟨?_, ?_, ?_, ?_, ?_⟩
  · intro c hc
    exact hA4 c (pyStrip_mem hc)
  · exact pyStrip_noDouble hND4
  · exact pyStrip_noTriple hNT4
  · exact pyStrip_headNot L4
  · exact pyStrip_reverse_headNot L4

theorem cleanList_normal_table (l : List Char) : NormalTable (cleanList true l) := by
  unfold cleanList
  rw [cleanStage3_table]
  set L2 := (l.flatMap (cleanChar true)).filter (fun c => !isZeroWidth c) with hL2
  have hA2 : ∀ c ∈ L2,
      (32 ≤ c.toNat ∨ c.toNat = 9 ∨ c.toNat = 10) ∧ isZeroWidth c = false := by
    intro c hc
    rw [hL2] at hc
    have hzw : isZeroWidth c = false := by
      have := List.of_mem_filter hc
      simpa using this
    refine ⟨?_, hzw⟩
    have hmem := List.mem_of_mem_filter hc
    rcases List.mem_flatMap.mp hmem with ⟨a, _, hca⟩
    rcases cleanChar_mem_class hca with h | h | h | ⟨hm, _⟩
    · tauto
    · tauto
    · tauto
    · cases hm
  set L3 := collapseRun isST false L2 with hL3
  have hA3 : ∀ c ∈ L3,
      (32 ≤ c.toNat ∨ c.toNat = 10) ∧ isZeroWidth c = false := by
    intro c hc
    have hc9 : c.toNat ≠ 9 := by
      intro h9
      have hst : isST c = true := by
        rw [char_eq_tab h9]
        rfl
      have := collapseRun_pOnly isST L2 false c (hL3 ▸ hc) hst
      rw [this] at h9
      simp at h9
    rcases collapseRun_mem isST L2 false c (hL3 ▸ hc) with hcm | hsp
    · rcases hA2 c hcm with ⟨hcls, hzw⟩
      refine ⟨?_, hzw⟩
      rcases hcls with h | h | h
      · tauto
      · exact absurd h hc9
      · tauto
    · rw [hsp]
      exact ⟨by decide, by decide⟩
  set L4 := mapNLCR L3 with hL4
  have hA4 : ∀ c ∈ L4, 32 ≤ c.toNat ∧ isZeroWidth c = false := by
    intro c hc
    rcases mapNLCR_mem L3 c (hL4 ▸ hc) with ⟨hcm, hnl, _⟩ | hsp
    · rcases hA3 c hcm with ⟨hcls, hzw⟩
      refine ⟨?_, hzw⟩
      rcases hcls with h | h
      · exact h
      · exact absurd (char_eq_lf h) hnl
    · rw [hsp]
      exact ⟨by decide, by decide⟩
  set L5 := collapseRun pyIsSpace false L4 with hL5
  have hA5 : ∀ c ∈ L5,
      32 ≤ c.toNat ∧ isZeroWidth c = false ∧ (pyIsSpace c = true → c = ' ') := by
    intro c hc
    have hsp : pyIsSpace c = true → c = ' ' :=
      collapseRun_pOnly pyIsSpace L4 false c (hL5 ▸ hc)
    rcases collapseRun_mem pyIsSpace L4 false c (hL5 ▸ hc) with hcm | hspc
    · rcases hA4 c hcm with ⟨h32, hzw⟩
      exact ⟨h32, hzw, hsp⟩
    · rw [hspc]
      exact ⟨by decide, by decide, fun _ => rfl⟩
  have hND5 : noDouble pyIsSpace L5 = true := collapseRun_noDouble pyIsSpace L4 false
  refine ⟨?_, ?_, ?_, ?_⟩
  · intro c hc
    exact hA5 c (pyStrip_mem hc)
  · exact pyStrip_noDouble hND5
  · exact pyStrip_headNot L5
  · exact pyStrip_reverse_headNot L5
/-! C7 development: cleaning is the identity on its own output -/

theorem isST_subset_pyIsSpace : ∀ c : Char, isST c = true → pyIsSpace c = true := by
  intro c h
  simp only [isST, Bool.or_eq_true, beq_iff_eq] at h
  rcases h with h | h <;> rw [h] <;> decide

theorem cleanList_body_id (l : List Char) (h : NormalBody l) :
    cleanList false l = l := by
  obtain ⟨hcls, hnd, hnt, he1, he2⟩ := h
  unfold cleanList
  rw [cleanStage3_body]
  have h1 : l.flatMap (cleanChar false) = l := by
    apply flatMap_eq_self
    intro c hc
    rcases (hcls c hc).1 with h32 | h10 | h13
    · exact cleanChar_eq_self_of_ge false c h32
    · exact cleanChar_eq_self_body (Or.inl h10)
    · exact cleanChar_eq_self_body (Or.inr h13)
  have h2 : (l.filter fun c => !isZeroWidth c) = l := by
    apply List.filter_eq_self.mpr
    intro c hc
    rw [(hcls c hc).2.1]
    rfl
  rw [h1, h2]
  have h3 : collapseRun isST false l = l := by
    refine (collapseRun_eq_self isST l ?_ hnd).1
    intro c hc hst
    simp only [isST, Bool.or_eq_true, beq_iff_eq] at hst
    rcases hst with hsp | htab
    · exact hsp
    · exfalso
      apply (hcls c hc).2.2
      rw [htab]
      rfl
  rw [h3, collapseNL_eq_self l 0 hnt (Or.inl rfl)]
  exact pyStrip_eq_self he1 he2

theorem cleanList_table_id (l : List Char) (h : NormalTable l) :
    cleanList true l = l := by
  obtain ⟨hcls, hnd, he1, he2⟩ := h
  unfold cleanList
  rw [cleanStage3_table]
  have h1 : l.flatMap (cleanChar true) = l := by
    apply flatMap_eq_self
    intro c hc
    exact cleanChar_eq_self_of_ge true c (hcls c hc).1
  have h2 : (l.filter fun c => !isZeroWidth c) = l := by
    apply List.filter_eq_self.mpr
    intro c hc
    rw [(hcls c hc).2.1]
    rfl
  rw [h1, h2]
  have h3 : collapseRun isST false l = l := by
    refine (collapseRun_eq_self isST l ?_ ?_).1
    · intro c hc hst
      exact (hcls c hc).2.2 (isST_subset_pyIsSpace c hst)
    · exact noDouble_mono isST_subset_pyIsSpace l hnd
  rw [h3]
  have h4 : mapNLCR l = l := by
    apply mapNLCR_eq_self
    intro c hc
    have h32 := (hcls c hc).1
    constructor
    · intro he
      rw [he] at h32
      simp at h32
    · intro he
      rw [he] at h32
      simp at h32
  rw [h4]
  have h5 : collapseRun pyIsSpace false l = l := by
    refine (collapseRun_eq_self pyIsSpace l ?_ hnd).1
    intro c hc
    exact (hcls c hc).2.2
  rw [h5]
  exact pyStrip_eq_self he1 he2

/-- C7: text cleaning is idempotent in both modes: for every string `s` and
mode `m` (body or table), `clean_hwp_text (clean_hwp_text s m) m =
clean_hwp_text s m`. -/
theorem clean_hwp_text_idempotent (s : String) (m : Bool) :
    clean_hwp_text (clean_hwp_text s m) m = clean_hwp_text s m := by
  cases m
  · show String.mk (cleanList false (String.mk (cleanList false s.data)).data) =
      String.mk (cleanList false s.data)
    exact congrArg String.mk (cleanList_body_id _ (cleanList_normal_body s.data))
  · show String.mk (cleanList true (String.mk (cleanList true s.data)).data) =
      String.mk (cleanList true s.data)
    exact congrArg String.mk (cleanList_table_id _ (cleanList_normal_table s.data))

/-! # Claim theorems -/

/-- C6: for every FAT array, sector-reading function and start sector, the
chain walk of `_read_chain` performs at most `max_hops` sector advances
(and `max_hops` is at least 1,000,000) before stopping — the possible stop
causes being exactly the constructors of `StopReason`: a reserved sid, an
out-of-range index, or hop exhaustion.  The FAT is arbitrary, so cyclic
FATs are covered. -/
theorem chain_read_hop_bound (readOne : Nat → Except PyErr (List Nat))
    (fat : List Nat) (sid : Nat) (out : List Nat × Nat × StopReason)
    (h : chainGo readOne fat sid max_hops = .ok out) :
    out.2.1 ≤ max_hops ∧ 1000000 ≤ max_hops :=
  ⟨chainGo_advances_le readOne fat max_hops sid out h, le_refl _⟩

/-- Witness for C6: a walk that stops at an out-of-range index after zero
advances, on an empty FAT. -/
theorem chain_read_hop_bound_witness :
    chainGo (fun _ => .ok [1]) [] 5 max_hops = .ok ([1], 0, .brokenFat) ∧
      (([1], 0, StopReason.brokenFat) : List Nat × Nat × StopReason).2.1 ≤ max_hops ∧
      1000000 ≤ max_hops :=
  ⟨rfl, chain_read_hop_bound (fun _ => .ok [1]) [] 5 ([1], 0, .brokenFat) rfl⟩

/-- C8: decompression of a section is attempted with window-bit settings
`-15`, `15`, `0` in that order; the first success supplies the record
bytes, and when all three fail the parser proceeds with the raw bytes (the
record loop runs on `section_data` itself). -/
theorem decompress_attempt_order (dec : Int → List Nat → Option (List Nat))
    (data r15 r15p r0 : List Nat) :
    (dec (-15) data = some r15 → tryDecompress dec data = (r15, true)) ∧
    (dec (-15) data = none → dec 15 data = some r15p →
      tryDecompress dec data = (r15p, true)) ∧
    (dec (-15) data = none → dec 15 data = none → dec 0 data = some r0 →
      tryDecompress dec data = (r0, true)) ∧
    (dec (-15) data = none → dec 15 data = none → dec 0 data = none →
      tryDecompress dec data = (data, false) ∧
        extract_content_from_section dec data =
          extract_records_go data data.length 0) := by
  refine ⟨?_, ?_, ?_, ?_⟩
  · intro h1; unfold tryDecompress; rw [h1]
  · intro h1 h2; unfold tryDecompress; rw [h1, h2]
  · intro h1 h2 h3; unfold tryDecompress; rw [h1, h2, h3]
  · intro h1 h2 h3
    have ht : tryDecompress dec data = (data, false) := by
      unfold tryDecompress; rw [h1, h2, h3]
    refine ⟨ht, ?_⟩
    unfold extract_content_from_section
    rw [ht]

/-- Witness for C8: an oracle succeeding only with window bits `15`, and an
oracle that always fails. -/
theorem decompress_attempt_order_witness :
    tryDecompress (fun w _ => if w = 15 then some [7] else none) [1, 2] = ([7], true) ∧
      tryDecompress no_decompress [1, 2] = ([1, 2], false) :=
  ⟨(decompress_attempt_order (fun w _ => if w = 15 then some [7] else none)
      [1, 2] [] [7] []).2.1 rfl rfl,
   ((decompress_attempt_order no_decompress [1, 2] [] [] []).2.2.2 rfl rfl rfl).1⟩

/-- C9: `read_stream` fails with `NotFound` exactly when `exists` is false,
equivalently exactly when the path is not among `list_streams()`; for a
registered path it never raises `NotFound`. -/
theorem read_stream_notFound_iff (r : OleReader) (p : String) :
    (read_stream r p = .error .notFound ↔ stream_exists r p = false) ∧
    (stream_exists r p = false ↔ p ∉ list_streams r) := by
  constructor
  · unfold read_stream stream_exists
    cases hl : dirLookup r p with
    | none => simp
    | some entry =>
      simp only [Option.isSome_some]
      constructor
      · intro h
        split at h
        · exact absurd h (by simp)
        · exact absurd (read_chain_error r _ _ _ _ h) (by simp)
      · intro h; cases h
  · rw [mem_list_streams_iff]
    unfold stream_exists
    cases dirLookup r p <;> simp

/-- C10: when the stream list lacks `FileHeader`, `read_hwp_metadata`
returns `{version: None, compressed: None}`: the guard precedes any
`read_stream` call, so nothing is read and no error is raised. -/
theorem read_hwp_metadata_no_fileheader (r : OleReader)
    (h : "FileHeader" ∉ list_streams r) :
    read_hwp_metadata r = .ok ⟨none, none⟩ := by
  unfold read_hwp_metadata
  rw [if_pos h]

/-- Witness for C10: the empty reader lists no streams. -/
theorem read_hwp_metadata_no_fileheader_witness :
    "FileHeader" ∉ list_streams oleEmpty ∧
      read_hwp_metadata oleEmpty = .ok ⟨none, none⟩ :=
  ⟨by decide, read_hwp_metadata_no_fileheader oleEmpty (by decide)⟩

/-- Counterexample for C4: the code tests the start sector against the
reserved values `FREE_SECTOR` and `END_OF_CHAIN`, not against zero.  For
the directory entry of `Y` the starting sid is zero, yet `read_stream`
returns the one-byte MiniStream content, not empty bytes. -/
theorem read_stream_zero_sid_counterexample :
    dirLookup oleZeroSid "Y" = some ⟨0, 1⟩ ∧
      read_stream oleZeroSid "Y" = .ok [0x41] ∧
      (Except.ok [0x41] : Except PyErr (List Nat)) ≠ .ok [] := by
  refine ⟨rfl, rfl, ?_⟩
  intro h
  injection h with h
  exact List.cons_ne_nil _ _ h

/-- C4 (amended): for every directory entry looked up by `read_stream`, a
reserved (`FREE_SECTOR` or `END_OF_CHAIN`) starting sid or a zero
`stream_size` yields empty bytes; otherwise the MiniFAT/MiniStream route is
taken exactly when `stream_size < mini_stream_cutoff` and the regular-FAT
route otherwise. -/
theorem read_stream_routing (r : OleReader) (p : String) (e : DirEntry)
    (h : dirLookup r p = some e) :
    ((e.start_sector = FREE_SECTOR ∨ e.start_sector = END_OF_CHAIN ∨
        e.stream_size = 0) → read_stream r p = .ok []) ∧
    (¬(e.start_sector = FREE_SECTOR ∨ e.start_sector = END_OF_CHAIN ∨
        e.stream_size = 0) →
      (e.stream_size < r.mini_stream_cutoff →
        read_stream r p =
          (if r.minifat = [] ∨ r.mini_stream_data = [] then .ok []
           else (chainGo (read_mini_sector r) r.minifat e.start_sector max_hops).map
             (fun out => trimTo (some e.stream_size) out.1))) ∧
      (¬e.stream_size < r.mini_stream_cutoff →
        read_stream r p =
          (chainGo (read_sector r) r.fat e.start_sector max_hops).map
            (fun out => trimTo (some e.stream_size) out.1))) := by
  have hrs : read_stream r p =
      (if e.start_sector = FREE_SECTOR ∨ e.start_sector = END_OF_CHAIN ∨
          e.stream_size = 0 then .ok []
       else read_chain r e.start_sector (some e.stream_size)
         (decide (e.stream_size < r.mini_stream_cutoff))) := by
    unfold read_stream
    rw [h]
  constructor
  · intro hres
    rw [hrs, if_pos hres]
  · intro hres
    rw [hrs, if_neg hres]
    push_neg at hres
    obtain ⟨h1, h2, _⟩ := hres
    constructor
    · intro hlt
      unfold read_chain
      rw [if_neg (by tauto), decide_eq_true hlt]
      simp only [if_true]
    · intro hge
      unfold read_chain
      rw [if_neg (by tauto), decide_eq_false hge]
      simp only [Bool.false_eq_true, if_false]

/-- Witness for C4: the entry for `Y` (start sector 0, size 1) routes
through the MiniFAT since `1 < 4096`. -/
theorem read_stream_routing_witness :
    read_stream oleZeroSid "Y" =
      (if oleZeroSid.minifat = [] ∨ oleZeroSid.mini_stream_data = [] then .ok []
       else (chainGo (read_mini_sector oleZeroSid) oleZeroSid.minifat 0 max_hops).map
         (fun out => trimTo (some 1) out.1)) :=
  ((read_stream_routing oleZeroSid "Y" ⟨0, 1⟩ rfl).2 (by decide)).1 (by decide)

/-- Counterexample for C2: the path `X` is listed, its directory entry
records `stream_size = 1`, yet `read_stream` returns zero bytes (its start
sector is reserved, so the defensive empty-bytes branch fires instead of
producing one byte). -/
theorem read_stream_length_counterexample :
    "X" ∈ list_streams oleShort ∧
      dirLookup oleShort "X" = some ⟨END_OF_CHAIN, 1⟩ ∧
      read_stream oleShort "X" = .ok [] ∧
      (List.length ([] : List Nat) = 1 → False) := by
  refine ⟨by decide, rfl, rfl, by decide⟩

/-- C2 (amended): for every path returned by `list_streams()`,
`read_stream` returns (when it returns bytes at all) a byte string of
length at most the `stream_size` recorded in the directory entry — the
chain result is truncated to `stream_size`, and a broken chain can supply
fewer bytes; for any path absent from the directory lookup, `read_stream`
fails with `NotFound`. -/
theorem read_stream_length (r : OleReader) (p : String) :
    (∀ e, dirLookup r p = some e → ∀ bs, read_stream r p = .ok bs →
      bs.length ≤ e.stream_size) ∧
    (dirLookup r p = none → read_stream r p = .error .notFound) ∧
    (p ∈ list_streams r ↔ (dirLookup r p).isSome) := by
  refine ⟨?_, ?_, mem_list_streams_iff r p⟩
  · intro e he bs hbs
    have hrs : read_stream r p =
        (if e.start_sector = FREE_SECTOR ∨ e.start_sector = END_OF_CHAIN ∨
            e.stream_size = 0 then .ok []
         else read_chain r e.start_sector (some e.stream_size)
           (decide (e.stream_size < r.mini_stream_cutoff))) := by
      unfold read_stream
      rw [he]
    rw [hrs] at hbs
    split at hbs
    · injection hbs with hbs; subst hbs; simp
    · unfold read_chain at hbs
      split at hbs
      · injection hbs with hbs; subst hbs; simp
      split at hbs
      · split at hbs
        · injection hbs with hbs; subst hbs; simp
        · cases hc : chainGo (read_mini_sector r) r.minifat e.start_sector max_hops with
          | error e2 => rw [hc] at hbs; simp [Except.map] at hbs
          | ok out =>
            rw [hc] at hbs
            simp [Except.map] at hbs
            subst hbs
            simp [trimTo]
      · cases hc : chainGo (read_sector r) r.fat e.start_sector max_hops with
        | error e2 => rw [hc] at hbs; simp [Except.map] at hbs
        | ok out =>
          rw [hc] at hbs
          simp [Except.map] at hbs
          subst hbs
          simp [trimTo]
  · intro he
    unfold read_stream
    rw [he]

/-- Witness for C2: applying the bound and the `NotFound` case at concrete
readers. -/
theorem read_stream_length_witness :
    (read_stream oleZeroSid "Y" = .ok [0x41] ∧ List.length [0x41] ≤ 1) ∧
      read_stream oleEmpty "Z" = .error .notFound :=
  ⟨⟨rfl, (read_stream_length oleZeroSid "Y").1 ⟨0, 1⟩ rfl [0x41] rfl⟩,
   (read_stream_length oleEmpty "Z").2.1 rfl⟩

set_option maxHeartbeats 2000000 in
/-- Counterexample for C3: `parse_cell_list` copies the four u16 span
fields from the input without validation, so a section whose cell header
declares `col_span = 0` produces an emitted `Table` containing a cell with
`col_span = 0` — the claimed invariant `col_span ≥ 1` fails on an emitted
table. -/
theorem table_span_counterexample :
    (extract_content_from_section no_decompress (mk_table_section 0 2)).2 =
      [⟨1, 1, [⟨0, 0, 0, 2, ""⟩]⟩] ∧
      ¬(∀ t ∈ (extract_content_from_section no_decompress (mk_table_section 0 2)).2,
          ∀ c ∈ t.cells, 1 ≤ c.col_span ∧ 1 ≤ c.row_span) := by
  constructor
  · rfl
  · decide

set_option maxHeartbeats 2000000 in
/-- C3 (amended): the parser emits table cells with the `col_span` and
`row_span` u16 fields taken verbatim from the input, without any
validation: whenever the cell scan reaches a `LIST_HEADER` record at
`level + 1` whose payload fits, the corresponding cell is emitted no matter
what its span fields hold (first conjunct, fully general), and in
particular a section declaring `col_span = 0` (violating `col_span ≥ 1`)
and `row + row_span = 3 > row_count = 1` (out of bounds) still yields that
exact cell in the emitted table (second conjunct); clamping happens only on
render (`Table.to_text`), not in the parser. -/
theorem table_spans_unchecked :
    (∀ (data : List Nat) (stop level pos np size : Nat), pos < stop →
      read_record_header data pos = (some (HWPTAG_LIST_HEADER, level + 1, size), np) →
      np + size ≤ data.length → np + 26 ≤ data.length →
      (⟨u16at data np, u16at data (np + 2), u16at data (np + 4), u16at data (np + 6),
        String.intercalate " " (collect_cell_text data (np + size) (np + size))⟩ : TableCell)
        ∈ parse_cell_list data pos stop level) ∧
    extract_content_from_section no_decompress (mk_table_section 0 3) =
      ([], [⟨1, 1, [⟨0, 0, 0, 3, ""⟩]⟩]) := by
  constructor
  · intro data stop level pos np size hlt hrec hb h26
    unfold parse_cell_list
    obtain ⟨f, hf⟩ : ∃ f, stop - pos = f + 1 := ⟨stop - pos - 1, by omega⟩
    rw [hf]
    unfold parse_cell_list_go
    rw [if_pos hlt, hrec]
    simp only
    rw [if_neg (show ¬np + size > data.length by omega), if_pos ⟨trivial, trivial⟩,
      if_pos h26]
    exact List.mem_append_left _ (List.mem_singleton.mpr rfl)
  · rfl

set_option maxHeartbeats 2000000 in
/-- Witness for C3: the general emission statement applied to the concrete
section declaring `col_span = 0`, `row_span = 2`. -/
theorem table_spans_unchecked_witness :
    (12 : Nat) < 42 ∧
      read_record_header (mk_table_section 0 2) 12 =
        (some (HWPTAG_LIST_HEADER, 0 + 1, 26), 16) ∧
      (16 : Nat) + 26 ≤ (mk_table_section 0 2).length ∧
      (⟨0, 0, 0, 2, ""⟩ : TableCell) ∈ parse_cell_list (mk_table_section 0 2) 12 42 0 := by
  refine ⟨by decide, by decide, by decide, ?_⟩
  exact table_spans_unchecked.1 (mk_table_section 0 2) 42 0 12 16 26
    (by decide) (by decide) (by decide) (by decide)

set_option maxRecDepth 10000 in
set_option maxHeartbeats 2000000 in
/-- C5: for every choice of the fourteen filler bytes following the `09 00`
control code unit, chunking the payload `41 00 | 09 00 + filler | 42 00`
emits exactly the chunks `"A"` and `"B"` (the 0x09 control spans 8 wchars =
16 bytes, so the filler is never scanned), and a section holding that
payload as a single `PARA_TEXT` record (tag `0x43`, level 0, size 20)
yields exactly the paragraphs `["A", "B"]` and no tables. -/
theorem control_skip_chunks (f0 f1 f2 f3 f4 f5 f6 f7 f8 f9 f10 f11 f12 f13 : Nat) :
    parse_para_text_chunks
        [0x41, 0, 0x09, 0, f0, f1, f2, f3, f4, f5, f6, f7, f8, f9, f10, f11,
         f12, f13, 0x42, 0] = ["A", "B"] ∧
      extract_content_from_section no_decompress
        [0x43, 0x00, 0x40, 0x01,
         0x41, 0, 0x09, 0, f0, f1, f2, f3, f4, f5, f6, f7, f8, f9, f10, f11,
         f12, f13, 0x42, 0] = (["A", "B"], []) := by
  have hchunks : parse_para_text_chunks
      [0x41, 0, 0x09, 0, f0, f1, f2, f3, f4, f5, f6, f7, f8, f9, f10, f11,
       f12, f13, 0x42, 0] = ["A", "B"] := rfl
  refine ⟨hchunks, ?_⟩
  set data := [0x43, 0x00, 0x40, 0x01,
       0x41, 0, 0x09, 0, f0, f1, f2, f3, f4, f5, f6, f7, f8, f9, f10, f11,
       f12, f13, 0x42, 0] with hdata
  have hlen : data.length = 24 := by rw [hdata]; rfl
  have hu : u32at data 0 = 20971587 := by
    rw [u32at]
    rw [show data.getD 0 0 = 0x43 from rfl, show data.getD (0 + 1) 0 = 0 from rfl,
        show data.getD (0 + 2) 0 = 0x40 from rfl, show data.getD (0 + 3) 0 = 0x01 from rfl]
  have h1 : read_record_header data 0 = (some (67, 0, 20), 4) := by
    rw [read_record_header, hlen, hu]
    norm_num
  have hslice : byteSlice data 4 20 =
      [0x41, 0, 0x09, 0, f0, f1, f2, f3, f4, f5, f6, f7, f8, f9, f10, f11,
       f12, f13, 0x42, 0] := by
    rw [hdata]; rfl
  have hstop : extract_records_go data 23 24 = ([], []) := by
    rw [show (23 : Nat) = 22 + 1 from rfl, extract_records_go, hlen]
    norm_num
  have hmain : extract_content_from_section no_decompress data =
      extract_records_go data data.length 0 := rfl
  rw [hmain, hlen, show (24 : Nat) = 23 + 1 from rfl, extract_records_go, h1]
  simp only [hlen]
  norm_num [HWPTAG_PARA_TEXT, HWPTAG_BEGIN, HWPTAG_TABLE, hslice, hchunks, hstop]
  rfl

/-- Every cell produced by the cell-scan loop originates from a
`LIST_HEADER` record at `level + 1`: its four u16 fields are read from the
start of that record's payload and its text joins the parts collected
between `payload_start + size` (the end of the cell header region) and the
record's end offset `payload_start + size`. -/
theorem parse_cell_list_go_sound (data : List Nat) (stop level : Nat) :
    ∀ (fuel pos : Nat) (cell : TableCell),
      cell ∈ parse_cell_list_go data stop level fuel pos →
      ∃ hpos np size,
        read_record_header data hpos = (some (HWPTAG_LIST_HEADER, level + 1, size), np) ∧
        np + size ≤ data.length ∧ np + 26 ≤ data.length ∧
        cell = ⟨u16at data np, u16at data (np + 2), u16at data (np + 4),
          u16at data (np + 6),
          String.intercalate " " (collect_cell_text data (np + size) (np + size))⟩ := by
  intro fuel
  induction fuel with
  | zero =>
    intro pos cell h
    simp [parse_cell_list_go] at h
  | succ n ih =>
    intro pos cell h
    unfold parse_cell_list_go at h
    by_cases hlt : pos < stop
    · rw [if_pos hlt] at h
      rcases hh : read_record_header data pos with ⟨o, np⟩
      rw [hh] at h
      match o with
      | none => simp at h
      | some (t, rl, sz) =>
        simp only at h
        by_cases hbound : np + sz > data.length
        · rw [if_pos hbound] at h
          simp at h
        · rw [if_neg hbound] at h
          rcases List.mem_append.mp h with hleft | hright
          · by_cases hcond : t = HWPTAG_LIST_HEADER ∧ rl = level + 1
            · rw [if_pos hcond] at hleft
              by_cases h26 : np + 26 ≤ data.length
              · rw [if_pos h26] at hleft
                refine ⟨pos, np, sz, ?_, by omega, h26, ?_⟩
                · rw [hh, hcond.1, hcond.2]
                · exact List.mem_singleton.mp hleft
              · rw [if_neg h26] at hleft
                simp at hleft
            · rw [if_neg hcond] at hleft
              simp at hleft
          · exact ih _ _ hright
    · rw [if_neg hlt] at h
      simp at h

/-- C1: for every cell emitted by `parse_cell_list`, there is a
`LIST_HEADER` record at `level + 1` from whose payload the cell was built:
the text is the space-join of the table-mode-cleaned `PARA_TEXT` chunks
gathered by scanning records from `payload_start + list_header_size`
(`cell_data_pos = cell_pos + size` in the source) up to the `LIST_HEADER`
record's end offset (`cell_end_pos = new_pos + size`); since
`cell_pos = new_pos`, both offsets equal `np + size` and the scanned region
is `[np + size, np + size)`. -/
theorem cell_text_from_region (data : List Nat) (pos stop level : Nat)
    (cell : TableCell) (h : cell ∈ parse_cell_list data pos stop level) :
    ∃ hpos np size,
      read_record_header data hpos = (some (HWPTAG_LIST_HEADER, level + 1, size), np) ∧
      np + size ≤ data.length ∧ np + 26 ≤ data.length ∧
      cell = ⟨u16at data np, u16at data (np + 2), u16at data (np + 4),
        u16at data (np + 6),
        String.intercalate " " (collect_cell_text data (np + size) (np + size))⟩ :=
  parse_cell_list_go_sound data stop level (stop - pos) pos cell h

set_option maxHeartbeats 2000000 in
/-- Witness for C1: the cell of a concrete 1×1 table with spans 1×1. -/
theorem cell_text_from_region_witness :
    ((⟨0, 0, 1, 1, ""⟩ : TableCell) ∈ parse_cell_list (mk_table_section 1 1) 12 42 0) ∧
    ∃ hpos np size,
      read_record_header (mk_table_section 1 1) hpos =
        (some (HWPTAG_LIST_HEADER, 0 + 1, size), np) ∧
      np + size ≤ (mk_table_section 1 1).length ∧
      np + 26 ≤ (mk_table_section 1 1).length ∧
      (⟨0, 0, 1, 1, ""⟩ : TableCell) =
        ⟨u16at (mk_table_section 1 1) np, u16at (mk_table_section 1 1) (np + 2),
          u16at (mk_table_section 1 1) (np + 4), u16at (mk_table_section 1 1) (np + 6),
          String.intercalate " "
            (collect_cell_text (mk_table_section 1 1) (np + size) (np + size))⟩ :=
  ⟨by decide, cell_text_from_region (mk_table_section 1 1) 12 42 0 ⟨0, 0, 1, 1, ""⟩
    (by decide)⟩

end Hwp